import Mathlib

/-!
Verification of the chess rules engine in `src/engine` (the canonical variant
specified by spec.md): board/location data model, per-piece move generation,
check detection, move validation (`Game::try_move`), and checkmate detection.

The Rust code is shallowly embedded: the 8-valued `File` and `Rank` enums are
`Fin 8` (enum ordinal = `Fin` value, `from_repr` = bounds check); the
`Board([[Option<Piece>; 8]; 8])` array together with its `Index`/`IndexMut`
implementations (which map a `Location` to `self.0[7 - rank][file]`, a
bijection) is the map `Location → Option Piece`; `Result`/`Option` returns
become `Option`; in-place mutation becomes state passing.

One declaration of the repository is inconsistent with its users:
`engine/board/pieces.rs` declares `Piece { piece_type, side }` without the
`has_moved` field, while `engine/move_generator/king.rs` and the game tests
pattern-match on `has_moved`.  The field is therefore modelled from the spec
(see `Piece`).
-/

/-- `Side` from `engine/board/pieces.rs`. -/
inductive Side : Type
  | White
  | Black
deriving DecidableEq, Repr

/-- `PieceType` from `engine/board/pieces.rs`, in declaration order
(this order is the order of `PieceType::iter()`). -/
inductive PieceType : Type
  | Pawn
  | Rook
  | Knight
  | Bishop
  | Queen
  | King
deriving DecidableEq, Repr

/-- `Piece` from `engine/board/pieces.rs`.

Modelled from the spec: the `has_moved : bool` field is missing from the
`Piece` declaration in `engine/board/pieces.rs` although `king.rs` and the
game tests pattern-match on it; per spec §3 it "starts `false` at game reset
and is set `true` the first time the piece is the subject of a committed
move" (no code under `src/engine` ever sets it). -/
structure Piece : Type where
  piece_type : PieceType
  side : Side
  has_moved : Bool
deriving DecidableEq, Repr

/-- `Piece::new` (sets only type and side; `has_moved` starts `false`). -/
def Piece.new (piece_type : PieceType) (side : Side) : Piece :=
  ⟨piece_type, side, false⟩

/-- `File` from `engine/board/location.rs`: the enum `A..H` as its ordinal. -/
abbrev File := Fin 8

/-- `Rank` from `engine/board/location.rs`: the enum `One..Eight` as its ordinal. -/
abbrev Rank := Fin 8

/-- `File::from_repr` / `Rank::from_repr` (strum): succeeds exactly on
ordinals `0..8`.  The argument is `Int` because `Location::offset` feeds it
`(coord as i8 + offset) as usize`, which for a negative sum yields a huge
`usize` and hence `None`: that is exactly the `¬(0 ≤ i ∧ i < 8)` branch. -/
def finFromRepr (i : Int) : Option (Fin 8) :=
  if h : 0 ≤ i ∧ i < 8 then some ⟨i.toNat, by omega⟩ else none

/-- `Location` from `engine/board/location.rs`. -/
structure Location : Type where
  file : File
  rank : Rank
deriving DecidableEq, Repr

/-- `Location::new`. -/
def Location.new (file : File) (rank : Rank) : Location := ⟨file, rank⟩

/-- `Location::offset(rank_offset, file_offset)`: bounds-checked offset
arithmetic; the rank is checked first, then the file (the distinct error
strings of the `Result` are dropped, only success matters to callers). -/
def Location.offset (loc : Location) (rank_offset file_offset : Int) :
    Option Location :=
  match finFromRepr ((loc.rank : Int) + rank_offset) with
  | none => none
  | some rank =>
    match finFromRepr ((loc.file : Int) + file_offset) with
    | none => none
    | some file => some ⟨file, rank⟩

/-- `Board` from `engine/board/board.rs`, seen through its `Index`/`IndexMut`
instances: the square contents as a map from `Location`. -/
def Board : Type := Location → Option Piece

/-- `Board::new`: every square empty. -/
def Board.new : Board := fun _ => none

/-- The `IndexMut` assignment `board[loc] = val`. -/
def Board.set (b : Board) (loc : Location) (val : Option Piece) : Board :=
  fun l => if l = loc then val else b l

/-- `MoveAction` from `engine/game/user_actions.rs`. -/
structure MoveAction : Type where
  from_loc : Location
  to_loc : Location
deriving DecidableEq, Repr

/-- `Board::action`: `self[to] = self[from]; self[from] = None`. -/
def Board.action (b : Board) (m : MoveAction) : Board :=
  (b.set m.to_loc (b m.from_loc)).set m.from_loc none

/-- `PieceMovementType` from `engine/move_generator/base.rs`. -/
inductive PieceMovementType : Type
  | Relocate (loc : Location)
  | Capture (loc : Location)
  | Promotion (loc : Location)
  | Castle (king_target rook_target : Location)
deriving DecidableEq, Repr

/-- `PieceMovementType::location`: the destination square, `None` for the
compound `Castle` move. -/
def PieceMovementType.location : PieceMovementType → Option Location
  | .Relocate val => some val
  | .Capture val => some val
  | .Promotion val => some val
  | .Castle _ _ => none

/-- The body of the `while let Ok(next_loc) = current_loc.offset(dy, dx)`
loop of `MoveGenerator::generate_moves_in_direction`, with an explicit fuel.
Each iteration moves one square further in a fixed nonzero unit direction and
the board is 8×8, so the loop runs at most 8 times; fuel 8 (see
`generate_moves_in_direction`) reproduces the loop exactly. -/
def genMovesInDirectionAux (b : Board) (side : Side) (dx dy : Int) :
    Nat → Location → List PieceMovementType
  | 0, _ => []
  | fuel + 1, current_loc =>
    match current_loc.offset dy dx with
    | none => []
    | some next_loc =>
      match b next_loc with
      | some piece =>
        if piece.side ≠ side then [.Capture next_loc] else []
      | none =>
        .Relocate next_loc :: genMovesInDirectionAux b side dx dy fuel next_loc

/-- `MoveGenerator::generate_moves_in_direction` from
`engine/move_generator/base.rs`. -/
def generate_moves_in_direction (b : Board) (loc : Location) (side : Side)
    (dx dy : Int) : List PieceMovementType :=
  genMovesInDirectionAux b side dx dy 8 loc

/-- `MoveGenerator::generate_sliding_moves`. -/
def generate_sliding_moves (b : Board) (loc : Location) (side : Side)
    (directions : List (Int × Int)) : List PieceMovementType :=
  directions.flatMap fun d => generate_moves_in_direction b loc side d.1 d.2

/-- `ROCK_POSSIBLE_DIRECTIONS` from `engine/move_generator/rock.rs`. -/
def ROCK_POSSIBLE_DIRECTIONS : List (Int × Int) :=
  [(0, 1), (0, -1), (1, 0), (-1, 0)]

/-- `BISHOP_POSSIBLE_DIRECTIONS` from `engine/move_generator/bishop.rs`. -/
def BISHOP_POSSIBLE_DIRECTIONS : List (Int × Int) :=
  [(1, 1), (-1, -1), (1, -1), (-1, 1)]

/-- `QUEEN_POSSIBLE_DIRECTIONS` from `engine/move_generator/queen.rs`. -/
def QUEEN_POSSIBLE_DIRECTIONS : List (Int × Int) :=
  [(0, 1), (0, -1), (1, 0), (-1, 0), (1, 1), (-1, -1), (1, -1), (-1, 1)]

/-- `KING_POSSIBLE_DIRECTIONS` from `engine/move_generator/king.rs`. -/
def KING_POSSIBLE_DIRECTIONS : List (Int × Int) :=
  [(0, 1), (0, -1), (1, 0), (-1, 0), (1, 1), (1, -1), (-1, 1), (-1, -1)]

/-- `KNIGHT_POSSIBLE_MOVES` from `engine/move_generator/knight.rs`. -/
def KNIGHT_POSSIBLE_MOVES : List (Int × Int) :=
  [(2, 1), (2, -1), (-2, 1), (-2, -1), (1, 2), (1, -2), (-1, 2), (-1, -2)]

/-- `RookMoveGen::generate_moves`. -/
def RookMoveGen.generate_moves (b : Board) (loc : Location) (side : Side) :
    List PieceMovementType :=
  generate_sliding_moves b loc side ROCK_POSSIBLE_DIRECTIONS

/-- `BishopMoveGen::generate_moves`. -/
def BishopMoveGen.generate_moves (b : Board) (loc : Location) (side : Side) :
    List PieceMovementType :=
  generate_sliding_moves b loc side BISHOP_POSSIBLE_DIRECTIONS

/-- `QueenMoveGen::generate_moves`. -/
def QueenMoveGen.generate_moves (b : Board) (loc : Location) (side : Side) :
    List PieceMovementType :=
  generate_sliding_moves b loc side QUEEN_POSSIBLE_DIRECTIONS

/-- `KnightMoveGen::generate_moves`: the fixed offset list, each in-bounds
target `Capture` if enemy, `Relocate` if empty, skipped if own-occupied. -/
def KnightMoveGen.generate_moves (b : Board) (loc : Location) (side : Side) :
    List PieceMovementType :=
  KNIGHT_POSSIBLE_MOVES.filterMap fun d =>
    match loc.offset d.2 d.1 with
    | none => none
    | some target_loc =>
      match b target_loc with
      | some piece =>
        if piece.side ≠ side then some (.Capture target_loc) else none
      | none => some (.Relocate target_loc)

/-- `PawnMoveGen::get_start_rank`. -/
def PawnMoveGen.get_start_rank : Side → Rank
  | .White => 1
  | .Black => 6

/-- `PawnMoveGen::get_promotion_rank`. -/
def PawnMoveGen.get_promotion_rank : Side → Rank
  | .White => 7
  | .Black => 0

/-- `PawnMoveGen::get_move_direction`. -/
def PawnMoveGen.get_move_direction : Side → Int
  | .White => 1
  | .Black => -1

/-- `PawnMoveGen::check_valid_move`: in bounds and empty. -/
def PawnMoveGen.check_valid_move (b : Board) (loc : Option Location) :
    Option Location :=
  match loc with
  | some valid_loc => if b valid_loc = none then some valid_loc else none
  | none => none

/-- `PawnMoveGen::check_valid_capture`: in bounds and enemy-occupied. -/
def PawnMoveGen.check_valid_capture (b : Board) (loc : Option Location)
    (side : Side) : Option Location :=
  match loc with
  | some valid_loc =>
    match b valid_loc with
    | some piece => if piece.side ≠ side then some valid_loc else none
    | none => none
  | none => none

/-- The final `iter_mut` pass of `PawnMoveGen::generate_moves`: a `Relocate`
or `Capture` landing on the promotion rank is re-tagged `Promotion`. -/
def pawnRetag (promotion_rank : Rank) : PieceMovementType → PieceMovementType
  | .Relocate target =>
    if target.rank = promotion_rank then .Promotion target else .Relocate target
  | .Capture target =>
    if target.rank = promotion_rank then .Promotion target else .Capture target
  | mv => mv

/-- `PawnMoveGen::generate_moves` from `engine/move_generator/pawn.rs`:
single step, double step (from the start rank, both squares empty), the two
diagonal captures, then the promotion re-tagging pass. -/
def PawnMoveGen.generate_moves (b : Board) (loc : Location) (side : Side) :
    List PieceMovementType :=
  let direction := PawnMoveGen.get_move_direction side
  let promotion_rank := PawnMoveGen.get_promotion_rank side
  let is_in_start_rank := loc.rank = PawnMoveGen.get_start_rank side
  let single_step_loc := loc.offset direction 0
  let double_step_loc := loc.offset (2 * direction) 0
  let forward : List PieceMovementType :=
    match PawnMoveGen.check_valid_move b single_step_loc with
    | some single_loc =>
      .Relocate single_loc ::
        (if is_in_start_rank ∧ b single_loc = none then
          match PawnMoveGen.check_valid_move b double_step_loc with
          | some double_loc => [.Relocate double_loc]
          | none => []
        else [])
    | none => []
  let captures : List PieceMovementType :=
    [(-1 : Int), 1].filterMap fun dx =>
      (PawnMoveGen.check_valid_capture b (loc.offset direction dx) side).map
        .Capture
  (forward ++ captures).map (pawnRetag promotion_rank)

/-- `KingMoveGen::king_side_castling` from `engine/move_generator/king.rs`.
Note the Rust `matches!` patterns `Some(Piece { piece_type: …, side,
has_moved: false })` bind `side` rather than compare it, so neither the
king's nor the rook's side is actually inspected. -/
def KingMoveGen.king_side_castling (b : Board) (loc : Location) :
    Option PieceMovementType :=
  match b loc with
  | some ⟨.King, _, false⟩ =>
    let rook_loc : Location := ⟨7, loc.rank⟩
    if (match b rook_loc with
        | some ⟨.Rook, _, false⟩ => true
        | _ => false)
        && decide (b ⟨5, loc.rank⟩ = none)
        && decide (b ⟨6, loc.rank⟩ = none) then
      some (.Castle ⟨6, loc.rank⟩ ⟨5, loc.rank⟩)
    else none
  | _ => none

/-- `KingMoveGen::queen_side_castling` (same binding caveat as kingside). -/
def KingMoveGen.queen_side_castling (b : Board) (loc : Location) :
    Option PieceMovementType :=
  match b loc with
  | some ⟨.King, _, false⟩ =>
    let rook_loc : Location := ⟨0, loc.rank⟩
    if (match b rook_loc with
        | some ⟨.Rook, _, false⟩ => true
        | _ => false)
        && decide (b ⟨1, loc.rank⟩ = none)
        && decide (b ⟨2, loc.rank⟩ = none)
        && decide (b ⟨3, loc.rank⟩ = none) then
      some (.Castle ⟨2, loc.rank⟩ ⟨3, loc.rank⟩)
    else none
  | _ => none

/-- `KingMoveGen::generate_moves`: the 8 adjacent squares with the knight's
occupancy rule, then the two castling candidates appended when present. -/
def KingMoveGen.generate_moves (b : Board) (loc : Location) (side : Side) :
    List PieceMovementType :=
  (KING_POSSIBLE_DIRECTIONS.filterMap fun d =>
    match loc.offset d.2 d.1 with
    | none => none
    | some target_loc =>
      match b target_loc with
      | some piece =>
        if piece.side ≠ side then some (.Capture target_loc) else none
      | none => some (.Relocate target_loc))
  ++ (KingMoveGen.king_side_castling b loc).toList
  ++ (KingMoveGen.queen_side_castling b loc).toList

/-- `PieceType::iter()` (strum): the variants in declaration order. -/
def PieceType.iterList : List PieceType :=
  [.Pawn, .Rook, .Knight, .Bishop, .Queen, .King]

/-- `get_move_generator` from `engine/game/mod.rs`. -/
def get_move_generator (piece_type : PieceType) :
    Board → Location → Side → List PieceMovementType :=
  match piece_type with
  | .Pawn => PawnMoveGen.generate_moves
  | .Rook => RookMoveGen.generate_moves
  | .Knight => KnightMoveGen.generate_moves
  | .Bishop => BishopMoveGen.generate_moves
  | .Queen => QueenMoveGen.generate_moves
  | .King => KingMoveGen.generate_moves

/-- `KingMoveGen::get_checked_pieces_location`: the reverse-attack scan.  For
each piece type, generate that type's moves from `k_loc` as the side of the
piece standing there; a `Capture(target)` whose target actually holds a piece
of the generating type marks an attacker.  Empty `k_loc` yields `[]`. -/
def KingMoveGen.get_checked_pieces_location (k_loc : Location) (b : Board) :
    List Location :=
  match b k_loc with
  | none => []
  | some piece =>
    PieceType.iterList.flatMap fun piece_type =>
      (get_move_generator piece_type b k_loc piece.side).filterMap fun mv =>
        match mv with
        | .Capture attack_loc =>
          match b attack_loc with
          | some p => if p.piece_type = piece_type then some attack_loc else none
          | none => none
        | _ => none

/-- `KingMoveGen::is_checked`. -/
def KingMoveGen.is_checked (k_loc : Location) (b : Board) : Bool :=
  !(KingMoveGen.get_checked_pieces_location k_loc b).isEmpty

/-- The game-state fields of `Game` from `engine/game/base.rs` (the `gui`
handle carries no rule state and is omitted); `king_pos: [Location; 2]`
indexed by `side as usize` is the map `Side → Location`. -/
structure Game : Type where
  board : Board
  active : Side
  king_pos : Side → Location

/-- `Game::switch_active_side`. -/
def switchSide : Side → Side
  | .White => .Black
  | .Black => .White

/-- `Game::get_moves_by_type`: the generated movements mapped through
`PieceMovementType::location` and collected into destinations (`Castle`, whose
`location()` is `None`, contributes none, exactly as in the explicit
`filter_map` of `generate_moves_bitboard`). -/
def Game.get_moves_by_type (g : Game) (p_type : PieceType) (loc : Location)
    (side : Side) : List Location :=
  (get_move_generator p_type g.board loc side).filterMap
    PieceMovementType.location

/-- `Game::validate_move`: a piece of the active side stands at `from` and
`to` is among its generated destinations. -/
def Game.validate_move (g : Game) (action : MoveAction) : Bool :=
  match g.board action.from_loc with
  | some piece =>
    if piece.side = g.active then
      decide (action.to_loc ∈ g.get_moves_by_type piece.piece_type
        action.from_loc piece.side)
    else false
  | none => false

/-- `Game::try_move`: snapshot `from`/`to`, pick the king square to test
(the destination when the moved piece is a king, else the cached
`king_pos[active]`), apply the board action, and test check.  Checked:
restore the two squares and report failure.  Not checked: set
`king_pos[active] := action.to` (unconditionally — whatever piece moved),
switch the active side, and report success.  The `Bool` is `true` for
`Ok(())` and `false` for `Err(_)` (the error string is dropped). -/
def Game.try_move (g : Game) (action : MoveAction) : Bool × Game :=
  let from_state := g.board action.from_loc
  let to_state := g.board action.to_loc
  let king_loc :=
    match from_state with
    | some piece =>
      if piece.piece_type = .King then action.to_loc else g.king_pos g.active
    | none => g.king_pos g.active
  let board1 := g.board.action action
  let restored := (board1.set action.from_loc from_state).set action.to_loc
    to_state
  if KingMoveGen.is_checked king_loc board1 then
    (false, { g with board := restored })
  else
    (true,
      { board := board1
        active := switchSide g.active
        king_pos := fun s =>
          if s = g.active then action.to_loc else g.king_pos s })

/-- `Game::check_is_check_and_rollback`: same simulation as `try_move` but
always restores the two squares; returns the check flag and the state. -/
def Game.check_is_check_and_rollback (g : Game) (action : MoveAction) :
    Bool × Game :=
  let from_state := g.board action.from_loc
  let to_state := g.board action.to_loc
  let king_loc :=
    match from_state with
    | some piece =>
      if piece.piece_type = .King then action.to_loc else g.king_pos g.active
    | none => g.king_pos g.active
  let board1 := g.board.action action
  let restored := (board1.set action.from_loc from_state).set action.to_loc
    to_state
  let is_checked := KingMoveGen.is_checked king_loc board1
  (is_checked, { g with board := restored })

/-- The candidate list of `Game::is_checkmate`: every square in
`File::iter × Rank::iter` order holding a piece of the active side
contributes one `MoveAction` per generated destination. -/
def Game.candidate_actions (g : Game) : List MoveAction :=
  (((List.finRange 8).flatMap fun file =>
      (List.finRange 8).map fun rank => (file, rank)).filterMap
    fun fr =>
      let original_loc : Location := ⟨fr.1, fr.2⟩
      match g.board original_loc with
      | some p =>
        if p.side = g.active then
          some ((g.get_moves_by_type p.piece_type original_loc g.active).map
            fun next_loc => MoveAction.mk original_loc next_loc)
        else none
      | none => none).flatten

/-- The `for` loop of `Game::is_checkmate`: run
`check_is_check_and_rollback` on each candidate in turn (threading the
state), returning `false` at the first candidate that does not leave the
king in check. -/
def checkmateLoop : List MoveAction → Game → Bool × Game
  | [], g => (true, g)
  | action :: rest, g =>
    let r := g.check_is_check_and_rollback action
    if r.1 then checkmateLoop rest r.2 else (false, r.2)

/-- `Game::is_checkmate`. -/
def Game.is_checkmate (g : Game) : Bool × Game :=
  checkmateLoop g.candidate_actions g

/-- Rust `char::to_ascii_lowercase`: adds 32 to an ASCII uppercase letter. -/
def asciiToLower (c : Char) : Char :=
  if 'A' ≤ c ∧ c ≤ 'Z' then Char.ofNat (c.toNat + 32) else c

/-- `File::from_char`: `(c.to_ascii_lowercase() as u8).checked_sub(b'a')`
then `from_repr`; total, `None` on any character outside `a`-`h`. -/
def File.from_char (c : Char) : Option File :=
  let idx := (asciiToLower c).toNat
  if 97 ≤ idx then finFromRepr ((idx - 97 : Nat) : Int) else none

/-- The possible outcomes of a Rust expression that may `panic` (via
`unwrap` or arithmetic underflow) instead of returning. -/
inductive PanicOr (α : Type) : Type
  | value (a : α)
  | panicked
deriving DecidableEq, Repr

/-- Rust `char::to_digit(10)`: `Some` digit value for `'0'..='9'`. -/
def charToDigit10 (c : Char) : Option Nat :=
  if '0' ≤ c ∧ c ≤ '9' then some (c.toNat - 48) else none

/-- `Rank::from_char`: `Self::from_repr((c.to_digit(10).unwrap() as usize) - 1)`.
The `unwrap` panics on a non-digit character.  For `'0'` the `usize`
subtraction `0 - 1` wraps (release build) to a huge index, so `from_repr`
yields `None` (a debug build would already abort here; either way
`Location::from` below ends in a panic for `'0'`). -/
def Rank.from_char (c : Char) : PanicOr (Option Rank) :=
  match charToDigit10 c with
  | none => .panicked
  | some d => .value (if d = 0 then none else finFromRepr ((d : Int) - 1))

/-- Outcome of `Location::from(&str) -> Result<Location, ()>`, whose body can
also panic. -/
inductive PResult : Type
  | ok (loc : Location)
  | err
  | panicked
deriving DecidableEq, Repr

/-- `Location::from` from `engine/board/location.rs`: fewer than two
characters yield `Err(())`; otherwise `File::from_char(*first).unwrap()` and
`Rank::from_char(*second).unwrap()` panic whenever the respective parse
fails. -/
def Location.from (value : String) : PResult :=
  match value.data with
  | first :: second :: _ =>
    match File.from_char first with
    | none => .panicked
    | some file =>
      match Rank.from_char second with
      | .panicked => .panicked
      | .value none => .panicked
      | .value (some rank) => .ok ⟨file, rank⟩
  | _ => .err

/-- Square a1. -/
def a1 : Location := ⟨0, 0⟩

/-- Square a2. -/
def a2 : Location := ⟨0, 1⟩

/-- Square a3. -/
def a3 : Location := ⟨0, 2⟩

/-- Square a4. -/
def a4 : Location := ⟨0, 3⟩

/-- Square a8. -/
def a8 : Location := ⟨0, 7⟩

/-- Square b6. -/
def b6 : Location := ⟨1, 5⟩

/-- Square d8. -/
def d8 : Location := ⟨3, 7⟩

/-- Square e1. -/
def e1 : Location := ⟨4, 0⟩

/-- Square e2. -/
def e2 : Location := ⟨4, 1⟩

/-- Square e3. -/
def e3 : Location := ⟨4, 2⟩

/-- Square e4. -/
def e4 : Location := ⟨4, 3⟩

/-- Square e5. -/
def e5 : Location := ⟨4, 4⟩

/-- Square e6. -/
def e6 : Location := ⟨4, 5⟩

/-- Square e7. -/
def e7 : Location := ⟨4, 6⟩

/-- Square e8. -/
def e8 : Location := ⟨4, 7⟩

/-- Square f1. -/
def f1 : Location := ⟨5, 0⟩

/-- Square f2. -/
def f2 : Location := ⟨5, 1⟩

/-- Square g1. -/
def g1 : Location := ⟨6, 0⟩

/-- Square h1. -/
def h1 : Location := ⟨7, 0⟩

/-- A white pawn fresh from `Piece::new`. -/
def whitePawn : Piece := Piece.new .Pawn .White

/-- A white rook fresh from `Piece::new`. -/
def whiteRook : Piece := Piece.new .Rook .White

/-- A white king fresh from `Piece::new`. -/
def whiteKing : Piece := Piece.new .King .White

/-- A white queen fresh from `Piece::new`. -/
def whiteQueen : Piece := Piece.new .Queen .White

/-- A black pawn fresh from `Piece::new`. -/
def blackPawn : Piece := Piece.new .Pawn .Black

/-- A black rook fresh from `Piece::new`. -/
def blackRook : Piece := Piece.new .Rook .Black

/-- A black king fresh from `Piece::new`. -/
def blackKing : Piece := Piece.new .King .Black

/-- Restoring the two snapshot squares after `Board::action` reproduces the
original board (the rollback of `try_move` and
`check_is_check_and_rollback`). -/
theorem board_restore (b : Board) (a : MoveAction) :
    ((b.action a).set a.from_loc (b a.from_loc)).set a.to_loc (b a.to_loc)
      = b := by
  funext l
  simp only [Board.action, Board.set]
  by_cases h1 : l = a.to_loc
  · simp [h1]
  · by_cases h2 : l = a.from_loc
    · simp only [h1, h2, if_false, if_true, if_pos rfl]
      by_cases h3 : a.from_loc = a.to_loc <;> simp [h3]
    · simp [h1, h2]

/-- Game state: White king e1, White pawn e2, White to move, caches correct. -/
def gameKingPawn : Game :=
  { board := (Board.new.set e1 (some whiteKing)).set e2 (some whitePawn)
    active := .White
    king_pos := fun s => match s with | .White => e1 | .Black => e8 }

/-- Game state of the spec's self-check scenario: White king e1, White rook
e2, Black rook e8, White to move, caches correct. -/
def gamePinnedRook : Game :=
  { board := ((Board.new.set e1 (some whiteKing)).set e2 (some whiteRook)).set
      e8 (some blackRook)
    active := .White
    king_pos := fun s => match s with | .White => e1 | .Black => e8 }

/-- Game state: only a White king on e1, White to move, caches correct. -/
def gameLoneKing : Game :=
  { board := Board.new.set e1 (some whiteKing)
    active := .White
    king_pos := fun s => match s with | .White => e1 | .Black => e8 }

/-- Stalemate position: Black king a8, White queen b6, Black to move; the
king is not attacked but each of its three moves (a7, b7, b8) walks into the
queen. -/
def gameStalemate : Game :=
  { board := (Board.new.set a8 (some blackKing)).set b6 (some whiteQueen)
    active := .Black
    king_pos := fun s => match s with | .White => e1 | .Black => a8 }

/-- Claim C1.  The claim states that after every `try_move` that returns
`Ok`, the cached `king_pos[side]` equals the square actually holding that
side's king.  The code instead executes `self.king_pos[self.active as usize]
= action.to` unconditionally before committing, so a committed non-king move
redirects the cache to the moved piece's destination: from the state with
White king e1 and White pawn e2, the (validated) pawn move e2→e3 commits,
after which `king_pos[White] = e3` while the king still stands on e1 —
contradicting the claim, the spec's lock-step invariant, and the function's
own documentation ("the king's position is adjusted (if the king moves)"). -/
theorem try_move_commit_corrupts_king_pos :
    gameKingPawn.validate_move ⟨e2, e3⟩ = true ∧
    (gameKingPawn.try_move ⟨e2, e3⟩).1 = true ∧
    (gameKingPawn.try_move ⟨e2, e3⟩).2.king_pos Side.White = e3 ∧
    (gameKingPawn.try_move ⟨e2, e3⟩).2.board e3 = some whitePawn ∧
    (gameKingPawn.try_move ⟨e2, e3⟩).2.board e1 = some whiteKing ∧
    e3 ≠ e1 := by
  refine ⟨by decide, by decide, by decide, by decide, by decide, by decide⟩

/-- Claim C2: every move rejected by `try_move` (it returns `Err`, modelled
as first component `false`) leaves the game state — board squares (hence all
`has_moved` flags), `king_pos` cache and active side — exactly as before the
attempt. -/
theorem try_move_rejected_preserves_state (g : Game) (a : MoveAction)
    (h : (g.try_move a).1 = false) : (g.try_move a).2 = g := by
  dsimp only [Game.try_move] at h ⊢
  split at h
  case isTrue hcond =>
    rw [if_pos hcond]
    cases g with
    | mk board active king_pos =>
      exact congrArg (fun b => Game.mk b active king_pos)
        (board_restore board a)
  case isFalse hcond =>
    simp at h

/-- Witness for C2, the spec's concrete self-check scenario: with White king
e1, White rook e2 and Black rook e8, the move e2→f2 fails and the state
afterwards equals the pre-attempt state. -/
theorem try_move_rejected_preserves_state_witness :
    (gamePinnedRook.try_move ⟨e2, f2⟩).1 = false ∧
    (gamePinnedRook.try_move ⟨e2, f2⟩).2 = gamePinnedRook :=
  ⟨by decide, try_move_rejected_preserves_state gamePinnedRook ⟨e2, f2⟩
    (by decide)⟩

/-- Counterexample to claim C3: `try_move` itself performs none of the
rejection checks of spec §4.3 step 1.  With only a White king on e1 and both
a3 and a4 empty, the action a3→a4 (empty `from` square) is not rejected:
`try_move` returns `Ok` and commits — it switches the active side and even
redirects `king_pos[White]` to a4. -/
theorem try_move_empty_from_commits :
    gameLoneKing.board a3 = none ∧
    (gameLoneKing.try_move ⟨a3, a4⟩).1 = true ∧
    (gameLoneKing.try_move ⟨a3, a4⟩).2.active = Side.Black ∧
    (gameLoneKing.try_move ⟨a3, a4⟩).2.king_pos Side.White = a4 := by
  refine ⟨by decide, by decide, by decide, by decide⟩

/-- Claim C3 as amended: the three step-1 rejections (empty `from` square,
piece of the inactive side, destination not among the generated
pseudo-legal destinations) are implemented by `validate_move`, which the
game loop consults before ever calling `try_move`; `validate_move` succeeds
exactly when none of the three conditions holds.  `try_move` itself performs
no such validation (see the counterexample). -/
theorem validate_move_iff (g : Game) (a : MoveAction) :
    g.validate_move a = true ↔
      ∃ p, g.board a.from_loc = some p ∧ p.side = g.active ∧
        a.to_loc ∈ g.get_moves_by_type p.piece_type a.from_loc p.side := by
  unfold Game.validate_move
  cases hb : g.board a.from_loc with
  | none => simp
  | some p =>
    by_cases hs : p.side = g.active <;> simp [hs]

/-- Claim C7.  The claim requires castling to be offered only when "a rook
of the same side as the king" stands on the wing's home square.  The Rust
`matches!` pattern `Some(Piece { piece_type: PieceType::Rook, side,
has_moved: false })` in `king_side_castling` *binds* `side` instead of
comparing it, so the rook's side is never checked: with a White king on e1
and a *Black* rook on h1 (f1, g1 empty, nothing moved), the kingside
`Castle(g1, f1)` is still generated for White. -/
theorem castle_offered_with_enemy_rook :
    ((Board.new.set e1 (some whiteKing)).set h1 (some blackRook)) h1
      = some blackRook ∧
    PieceMovementType.Castle g1 f1 ∈
      KingMoveGen.generate_moves
        ((Board.new.set e1 (some whiteKing)).set h1 (some blackRook))
        e1 Side.White := by
  refine ⟨by decide, by decide⟩

/-- Counterexample to claim C8: the claim says `is_checked` returns `false`
whenever *any piece of either side* stands on e5, e6 or e7.  An interposed
*Black rook* on e5 blocks the e8 rook but itself attacks e4, so `is_checked`
stays `true`. -/
theorem is_checked_true_with_interposed_enemy_rook :
    KingMoveGen.is_checked e4
      ((((Board.new.set e4 (some whiteKing)).set e8 (some blackRook)).set
        e5 (some blackRook))) = true := by decide

/-- Claim C8 as amended: `is_checked` is `true` for the White king on e4
with a Black rook on e8 and nothing between, and becomes `false` when a
piece of the *king's own side* — of any type — is interposed on e5, e6 or
e7 (an interposed piece of the attacker's side blocks the rook but may
itself give check, as the counterexample shows). -/
theorem is_checked_e4_rook_e8_blocking (pt : PieceType) :
    KingMoveGen.is_checked e4
      ((Board.new.set e4 (some whiteKing)).set e8 (some blackRook)) = true ∧
    KingMoveGen.is_checked e4
      (((Board.new.set e4 (some whiteKing)).set e8 (some blackRook)).set
        e5 (some (Piece.new pt .White))) = false ∧
    KingMoveGen.is_checked e4
      (((Board.new.set e4 (some whiteKing)).set e8 (some blackRook)).set
        e6 (some (Piece.new pt .White))) = false ∧
    KingMoveGen.is_checked e4
      (((Board.new.set e4 (some whiteKing)).set e8 (some blackRook)).set
        e7 (some (Piece.new pt .White))) = false := by
  cases pt <;> exact ⟨by decide, by decide, by decide, by decide⟩

/-- An input for `Location::from` with a well-formed file letter and an
out-of-range rank digit. -/
def rankOutOfRange : String := "e9"

/-- An input for `Location::from` with a file letter outside `a`-`h`. -/
def fileOutOfRange : String := "k4"

/-- An input for `Location::from` with a non-digit rank character. -/
def rankNotDigit : String := "ee"

/-- An input for `Location::from` with fewer than two characters. -/
def tooShort : String := "e"

/-- Claim C9.  The claim (and spec §6) requires malformed or out-of-range
location text to "fail explicitly rather than panic".  Only the
fewer-than-two-characters case returns `Err(())`; every in-range parse
failure goes through `.unwrap()` and panics: rank digit out of range
(`"e9"`), file letter out of range (`"k4"`), and a non-digit rank character
(`"ee"`, which panics inside `Rank::from_char` at
`c.to_digit(10).unwrap()`). -/
theorem location_from_panics_on_malformed :
    Location.from rankOutOfRange = PResult.panicked ∧
    Location.from fileOutOfRange = PResult.panicked ∧
    Location.from rankNotDigit = PResult.panicked ∧
    Location.from tooShort = PResult.err := by
  refine ⟨by decide, by decide, by decide, by decide⟩

/-- Counterexample to claim C10: for the degenerate action with
`from == to`, `Board::action` *clears* the square (it copies the occupant
onto itself and then sets `self[from] = None`), so the `to` square does not
hold what the `from` square held before. -/
theorem board_action_same_square_clears :
    (Board.new.set e2 (some whitePawn)) e2 = some whitePawn ∧
    Board.action (Board.new.set e2 (some whitePawn)) ⟨e2, e2⟩ e2 = none := by
  refine ⟨by decide, by decide⟩

/-- Claim C10 as amended: for every action whose `from` and `to` squares are
distinct, `Board::action` leaves `to` holding exactly what `from` held
before (overwriting any previous occupant unconditionally, and clearing `to`
when `from` was empty), leaves `from` empty, and leaves every other square
unchanged.  When `from = to` the square is simply cleared (see the
counterexample). -/
theorem board_action_frame (b : Board) (a : MoveAction)
    (h : a.from_loc ≠ a.to_loc) :
    (b.action a) a.to_loc = b a.from_loc ∧
    (b.action a) a.from_loc = none ∧
    ∀ l, l ≠ a.from_loc → l ≠ a.to_loc → (b.action a) l = b l := by
  have hne : a.to_loc ≠ a.from_loc := fun hh => h hh.symm
  refine ⟨?_, ?_, ?_⟩
  · simp [Board.action, Board.set, hne]
  · simp [Board.action, Board.set]
  · intro l h1 h2
    simp [Board.action, Board.set, h1, h2]

/-- Witness for the amended C10: moving the e2 pawn onto the e4 rook leaves
e4 holding the pawn, e2 empty, and every other square as it was. -/
theorem board_action_frame_witness :
    e2 ≠ e4 ∧
    ((((Board.new.set e2 (some whitePawn)).set e4 (some blackRook)).action
        ⟨e2, e4⟩) e4
      = ((Board.new.set e2 (some whitePawn)).set e4 (some blackRook)) e2 ∧
    (((Board.new.set e2 (some whitePawn)).set e4 (some blackRook)).action
        ⟨e2, e4⟩) e2 = none ∧
    ∀ l, l ≠ e2 → l ≠ e4 →
      (((Board.new.set e2 (some whitePawn)).set e4 (some blackRook)).action
        ⟨e2, e4⟩) l
        = ((Board.new.set e2 (some whitePawn)).set e4 (some blackRook)) l) :=
  ⟨by decide,
    board_action_frame ((Board.new.set e2 (some whitePawn)).set e4
      (some blackRook)) ⟨e2, e4⟩ (by decide)⟩

/-- Claim C6: every destination the pawn generator produces on the far rank
(rank 8 for White, rank 1 for Black) is tagged `Promotion` — a generated
move whose destination lies on the promotion rank can only be the
`Promotion` of that square, never `Relocate`/`Capture`, whichever sub-rule
(forward step or diagonal capture) produced it. -/
theorem pawn_far_rank_is_promotion (b : Board) (loc : Location) (side : Side)
    (mv : PieceMovementType) (l : Location)
    (hmem : mv ∈ PawnMoveGen.generate_moves b loc side)
    (hloc : mv.location = some l)
    (hrank : l.rank = PawnMoveGen.get_promotion_rank side) :
    mv = PieceMovementType.Promotion l := by
  simp only [PawnMoveGen.generate_moves, List.mem_map] at hmem
  obtain ⟨x, _, rfl⟩ := hmem
  cases x with
  | Relocate t =>
    simp only [pawnRetag] at hloc ⊢
    split
    · next ht =>
      rw [if_pos ht] at hloc
      simp only [PieceMovementType.location, Option.some.injEq] at hloc
      rw [hloc]
    · next ht =>
      rw [if_neg ht] at hloc
      simp only [PieceMovementType.location, Option.some.injEq] at hloc
      exact absurd (hloc ▸ hrank) ht
  | Capture t =>
    simp only [pawnRetag] at hloc ⊢
    split
    · next ht =>
      rw [if_pos ht] at hloc
      simp only [PieceMovementType.location, Option.some.injEq] at hloc
      rw [hloc]
    · next ht =>
      rw [if_neg ht] at hloc
      simp only [PieceMovementType.location, Option.some.injEq] at hloc
      exact absurd (hloc ▸ hrank) ht
  | Promotion t =>
    simp only [pawnRetag, PieceMovementType.location, Option.some.injEq]
      at hloc ⊢
    rw [hloc]
  | Castle t1 t2 =>
    simp [pawnRetag, PieceMovementType.location] at hloc

/-- Witness for C6: a White pawn on e7 with a Black rook on d8 — the
diagonal capture onto the far rank comes out tagged `Promotion d8`. -/
theorem pawn_far_rank_is_promotion_witness :
    PieceMovementType.Promotion d8 ∈
      PawnMoveGen.generate_moves
        ((Board.new.set e7 (some whitePawn)).set d8 (some blackRook))
        e7 Side.White ∧
    PieceMovementType.Promotion d8 = PieceMovementType.Promotion d8 :=
  ⟨by decide,
    pawn_far_rank_is_promotion
      ((Board.new.set e7 (some whitePawn)).set d8 (some blackRook))
      e7 Side.White (PieceMovementType.Promotion d8) d8
      (by decide) (by decide) (by decide)⟩

/-- `check_is_check_and_rollback` restores the state it was given: the two
snapshot squares are written back, and nothing else was touched. -/
theorem check_is_check_and_rollback_state (g : Game) (a : MoveAction) :
    (g.check_is_check_and_rollback a).2 = g := by
  dsimp only [Game.check_is_check_and_rollback]
  cases g with
  | mk board active king_pos =>
    exact congrArg (fun b => Game.mk b active king_pos) (board_restore board a)

/-- The `is_checkmate` loop over a candidate list computes `List.all` of the
per-candidate simulation flag, evaluated on the unchanged starting state. -/
theorem checkmateLoop_eq (l : List MoveAction) (g : Game) :
    checkmateLoop l g
      = (l.all fun a => (g.check_is_check_and_rollback a).1, g) := by
  induction l with
  | nil => rfl
  | cons a rest ih =>
    simp only [checkmateLoop, check_is_check_and_rollback_state, List.all_cons]
    cases hc : (g.check_is_check_and_rollback a).1 <;> simp [hc, ih]

/-- Counterexample to claim C4: the terminal-position detector makes *no*
checkmate/stalemate distinction and never re-runs the check detector against
the current king position.  In the stalemate position (Black king a8, White
queen b6, Black to move) every candidate move walks into check, so
`is_checkmate` reports `true` — even though the Black king is *not*
currently attacked, which per the claim should have been reported as
stalemate, not checkmate. -/
theorem is_checkmate_true_on_stalemate :
    (gameStalemate.is_checkmate).1 = true ∧
    KingMoveGen.is_checked a8 gameStalemate.board = false := by
  refine ⟨by decide, by decide⟩

/-- Claim C4 as amended: `is_checkmate` reports a terminal position exactly
when every pseudo-legal candidate `(from, to)` of the active side — every
destination generated for every piece of that side — leaves the simulation
check flag set (the flag of `check_is_check_and_rollback`, which tests the
moved king's destination or else the cached king position).  The code draws
no checkmate/stalemate distinction: no second run of the check detector
against the current king position is performed, and stalemate positions are
reported exactly like checkmate (see the counterexample). -/
theorem is_checkmate_iff (g : Game) :
    (g.is_checkmate).1 = true ↔
      ∀ (from_loc : Location) (p : Piece), g.board from_loc = some p →
        p.side = g.active →
        ∀ to_loc ∈ g.get_moves_by_type p.piece_type from_loc g.active,
          (g.check_is_check_and_rollback ⟨from_loc, to_loc⟩).1 = true := by
  rw [Game.is_checkmate, checkmateLoop_eq]
  simp only [List.all_eq_true]
  constructor
  · intro h from_loc p hb hs to_loc hto
    apply h
    simp only [Game.candidate_actions, List.mem_flatten, List.mem_filterMap,
      List.mem_flatMap, List.mem_map]
    refine ⟨(g.get_moves_by_type p.piece_type from_loc g.active).map
        fun next_loc => MoveAction.mk from_loc next_loc,
      ⟨(from_loc.file, from_loc.rank),
        ⟨from_loc.file, List.mem_finRange _,
          ⟨from_loc.rank, List.mem_finRange _, rfl⟩⟩, ?_⟩, ?_⟩
    · dsimp only
      rw [hb]
      dsimp only
      rw [if_pos hs]
    · exact List.mem_map.mpr ⟨to_loc, hto, rfl⟩
  · intro h a ha
    simp only [Game.candidate_actions, List.mem_flatten, List.mem_filterMap,
      List.mem_flatMap, List.mem_map] at ha
    obtain ⟨l, ⟨fr, _, hsome⟩, hal⟩ := ha
    rcases hbb : g.board ⟨fr.1, fr.2⟩ with _ | p
    · rw [hbb] at hsome
      simp at hsome
    · rw [hbb] at hsome
      dsimp only at hsome
      by_cases hss : p.side = g.active
      · rw [if_pos hss] at hsome
        obtain rfl : _ = l := Option.some.inj hsome
        obtain ⟨to_loc, hto, rfl⟩ := List.mem_map.mp hal
        exact h ⟨fr.1, fr.2⟩ p hbb hss to_loc hto
      · rw [if_neg hss] at hsome
        simp at hsome

/-- The square reached from `loc` after `n` single steps of the walk of
`generate_moves_in_direction` in direction `(dx, dy)`; `none` when the walk
leaves the board earlier.  Distance `n` along a ray, for stating the
sliding-move specification. -/
def stepN (dx dy : Int) : Nat → Location → Option Location
  | 0, loc => some loc
  | n + 1, loc =>
    match loc.offset dy dx with
    | none => none
    | some l1 => stepN dx dy n l1

/-- A successful single offset adds the offsets to the coordinates. -/
theorem offset_coords (loc l : Location) (ro fo : Int)
    (h : loc.offset ro fo = some l) :
    (l.file : Int) = (loc.file : Int) + fo ∧
    (l.rank : Int) = (loc.rank : Int) + ro := by
  unfold Location.offset finFromRepr at h
  by_cases h1 : (0 : Int) ≤ (loc.rank : Int) + ro ∧ (loc.rank : Int) + ro < 8
  · by_cases h2 : (0 : Int) ≤ (loc.file : Int) + fo ∧ (loc.file : Int) + fo < 8
    · simp only [dif_pos h1, dif_pos h2, Option.some.injEq] at h
      subst h
      constructor <;> simp <;> omega
    · simp only [dif_pos h1, dif_neg h2] at h
      exact Option.noConfusion h
  · simp only [dif_neg h1] at h
    exact Option.noConfusion h

/-- Unfolding one step of `stepN` through a successful offset. -/
theorem stepN_succ (dx dy : Int) (n : Nat) (loc l1 : Location)
    (h : loc.offset dy dx = some l1) :
    stepN dx dy (n + 1) loc = stepN dx dy n l1 := by
  simp [stepN, h]

/-- Distance 1 along the ray is one offset. -/
theorem stepN_one (dx dy : Int) (loc : Location) :
    stepN dx dy 1 loc = loc.offset dy dx := by
  cases h : loc.offset dy dx <;> simp [stepN, h]

/-- The square at ray distance `n` has coordinates `loc + n·(dx, dy)`. -/
theorem stepN_coords (dx dy : Int) :
    ∀ (n : Nat) (loc ln : Location), stepN dx dy n loc = some ln →
      (ln.file : Int) = (loc.file : Int) + n * dx ∧
      (ln.rank : Int) = (loc.rank : Int) + n * dy := by
  intro n
  induction n with
  | zero =>
    intro loc ln h
    simp only [stepN, Option.some.injEq] at h
    subst h
    simp
  | succ k ih =>
    intro loc ln h
    rw [stepN] at h
    cases ho : loc.offset dy dx with
    | none =>
      rw [ho] at h
      simp at h
    | some l1 =>
      rw [ho] at h
      obtain ⟨hf1, hr1⟩ := offset_coords loc l1 dy dx ho
      obtain ⟨hf2, hr2⟩ := ih l1 ln h
      constructor <;> push_cast
      · linear_combination hf2 + hf1
      · linear_combination hr2 + hr1

/-- Along any of the eight unit directions, a square exists at distance `n`
only for `n ≤ 7` (the walk cannot leave the 8×8 board and come back). -/
theorem stepN_le_seven (dx dy : Int)
    (hd : (dx, dy) ∈ QUEEN_POSSIBLE_DIRECTIONS) (n : Nat) (loc ln : Location)
    (h : stepN dx dy n loc = some ln) : n ≤ 7 := by
  obtain ⟨hf, hr⟩ := stepN_coords dx dy n loc ln h
  have hub1 := loc.file.isLt
  have hub2 := loc.rank.isLt
  have hub3 := ln.file.isLt
  have hub4 := ln.rank.isLt
  fin_cases hd <;> omega

/-- Two on-board ray squares from the same origin along unit directions
coincide only when the directions and the distances agree: rays from one
square are pairwise disjoint and each ray visits pairwise distinct
squares. -/
theorem stepN_cross (dx dy dx2 dy2 : Int)
    (hd : (dx, dy) ∈ QUEEN_POSSIBLE_DIRECTIONS)
    (hd2 : (dx2, dy2) ∈ QUEEN_POSSIBLE_DIRECTIONS)
    (loc l : Location) (j j2 : Nat) (hj : 1 ≤ j) (hj2 : 1 ≤ j2)
    (h1 : stepN dx dy j loc = some l) (h2 : stepN dx2 dy2 j2 loc = some l) :
    dx = dx2 ∧ dy = dy2 ∧ j = j2 := by
  obtain ⟨hf1, hr1⟩ := stepN_coords dx dy j loc l h1
  obtain ⟨hf2, hr2⟩ := stepN_coords dx2 dy2 j2 loc l h2
  fin_cases hd <;> fin_cases hd2 <;>
    exact ⟨by omega, by omega, by omega⟩

/-- If the first `n+1` ray squares are all on board and empty, the walk
reaches the square at distance `n+1` and emits its `Relocate`. -/
theorem relocate_mem_genAux (b : Board) (s : Side) (dx dy : Int) :
    ∀ (n fuel : Nat) (loc ln : Location),
      stepN dx dy (n + 1) loc = some ln → n + 1 ≤ fuel →
      (∀ (j : Nat) (lj : Location), 1 ≤ j → j ≤ n + 1 →
        stepN dx dy j loc = some lj → b lj = none) →
      PieceMovementType.Relocate ln ∈ genMovesInDirectionAux b s dx dy fuel loc
    := by
  intro n
  induction n with
  | zero =>
    intro fuel loc ln hstep hfuel hall
    obtain ⟨f, rfl⟩ : ∃ f, fuel = f + 1 := ⟨fuel - 1, by omega⟩
    rw [stepN] at hstep
    cases ho : loc.offset dy dx with
    | none =>
      rw [ho] at hstep
      exact Option.noConfusion hstep
    | some l1 =>
      rw [ho] at hstep
      have hln : l1 = ln := Option.some.inj hstep
      subst hln
      have hb : b l1 = none :=
        hall 1 l1 (by omega) (by omega) (by rw [stepN_one, ho])
      simp only [genMovesInDirectionAux, ho, hb]
      exact List.mem_cons_self _ _
  | succ k ih =>
    intro fuel loc ln hstep hfuel hall
    obtain ⟨f, rfl⟩ : ∃ f, fuel = f + 1 := ⟨fuel - 1, by omega⟩
    rw [stepN] at hstep
    cases ho : loc.offset dy dx with
    | none =>
      rw [ho] at hstep
      exact Option.noConfusion hstep
    | some l1 =>
      rw [ho] at hstep
      have hb : b l1 = none :=
        hall 1 l1 (by omega) (by omega) (by rw [stepN_one, ho])
      simp only [genMovesInDirectionAux, ho, hb]
      refine List.mem_cons_of_mem _ (ih f l1 ln hstep (by omega) ?_)
      intro j lj h1 h2 hstepj
      exact hall (j + 1) lj (by omega) (by omega)
        (by rw [stepN_succ dx dy j loc l1 ho]; exact hstepj)

/-- If the ray squares strictly before distance `n+1` are empty and the
square at distance `n+1` holds an enemy piece, the walk emits its
`Capture`. -/
theorem capture_mem_genAux (b : Board) (s : Side) (dx dy : Int) :
    ∀ (n fuel : Nat) (loc ln : Location) (p : Piece),
      stepN dx dy (n + 1) loc = some ln → n + 1 ≤ fuel →
      (∀ (j : Nat) (lj : Location), 1 ≤ j → j ≤ n →
        stepN dx dy j loc = some lj → b lj = none) →
      b ln = some p → p.side ≠ s →
      PieceMovementType.Capture ln ∈ genMovesInDirectionAux b s dx dy fuel loc
    := by
  intro n
  induction n with
  | zero =>
    intro fuel loc ln p hstep hfuel _ hocc hps
    obtain ⟨f, rfl⟩ : ∃ f, fuel = f + 1 := ⟨fuel - 1, by omega⟩
    rw [stepN] at hstep
    cases ho : loc.offset dy dx with
    | none =>
      rw [ho] at hstep
      exact Option.noConfusion hstep
    | some l1 =>
      rw [ho] at hstep
      have hln : l1 = ln := Option.some.inj hstep
      subst hln
      simp only [genMovesInDirectionAux, ho, hocc, if_pos hps]
      exact List.mem_cons_self _ _
  | succ k ih =>
    intro fuel loc ln p hstep hfuel hall hocc hps
    obtain ⟨f, rfl⟩ : ∃ f, fuel = f + 1 := ⟨fuel - 1, by omega⟩
    rw [stepN] at hstep
    cases ho : loc.offset dy dx with
    | none =>
      rw [ho] at hstep
      exact Option.noConfusion hstep
    | some l1 =>
      rw [ho] at hstep
      have hb : b l1 = none :=
        hall 1 l1 (by omega) (by omega) (by rw [stepN_one, ho])
      simp only [genMovesInDirectionAux, ho, hb]
      refine List.mem_cons_of_mem _ (ih f l1 ln p hstep (by omega) ?_ hocc hps)
      intro j lj h1 h2 hstepj
      exact hall (j + 1) lj (by omega) (by omega)
        (by rw [stepN_succ dx dy j loc l1 ho]; exact hstepj)

/-- Every move the walk emits is the `Relocate` of a ray square whose whole
prefix (itself included) is empty, or the `Capture` of the first occupied
ray square when its occupant is an enemy; in particular the walk emits
nothing but `Relocate`/`Capture` of on-board ray squares. -/
theorem mem_genAux_shape (b : Board) (s : Side) (dx dy : Int) :
    ∀ (fuel : Nat) (loc : Location) (mv : PieceMovementType),
      mv ∈ genMovesInDirectionAux b s dx dy fuel loc →
      ∃ (j : Nat) (l : Location), 1 ≤ j ∧ stepN dx dy j loc = some l ∧
        ((mv = .Relocate l ∧
          (∀ (i : Nat) (li : Location), 1 ≤ i → i ≤ j →
            stepN dx dy i loc = some li → b li = none)) ∨
         (mv = .Capture l ∧ (∃ p, b l = some p ∧ p.side ≠ s) ∧
          (∀ (i : Nat) (li : Location), 1 ≤ i → i < j →
            stepN dx dy i loc = some li → b li = none))) := by
  intro fuel
  induction fuel with
  | zero =>
    intro loc mv hmv
    simp [genMovesInDirectionAux] at hmv
  | succ f ih =>
    intro loc mv hmv
    rw [genMovesInDirectionAux] at hmv
    cases ho : loc.offset dy dx with
    | none =>
      rw [ho] at hmv
      simp at hmv
    | some l1 =>
      rw [ho] at hmv
      cases hb : b l1 with
      | some p =>
        simp only [hb] at hmv
        by_cases hps : p.side ≠ s
        · rw [if_pos hps] at hmv
          obtain rfl : mv = .Capture l1 := List.mem_singleton.mp hmv
          refine ⟨1, l1, le_refl 1, by rw [stepN_one, ho], Or.inr ?_⟩
          exact ⟨rfl, ⟨p, hb, hps⟩, fun i li h1 h2 _ => absurd h2 (by omega)⟩
        · rw [if_neg hps] at hmv
          simp at hmv
      | none =>
        simp only [hb] at hmv
        rcases List.mem_cons.mp hmv with rfl | hmv2
        · refine ⟨1, l1, le_refl 1, by rw [stepN_one, ho], Or.inl ⟨rfl, ?_⟩⟩
          intro i li h1 h2 hstepi
          obtain rfl : i = 1 := by omega
          rw [stepN_one, ho] at hstepi
          obtain rfl : l1 = li := Option.some.inj hstepi
          exact hb
        · obtain ⟨j, l, hj, hstep, H⟩ := ih l1 mv hmv2
          refine ⟨j + 1, l, by omega, ?_, ?_⟩
          · rw [stepN_succ dx dy j loc l1 ho]
            exact hstep
          · rcases H with ⟨hmveq, hall⟩ | ⟨hmveq, hocc, hall⟩
            · refine Or.inl ⟨hmveq, ?_⟩
              intro i li h1 h2 hstepi
              rcases i with _ | i0
              · omega
              · rw [stepN_succ dx dy i0 loc l1 ho] at hstepi
                by_cases hi0 : i0 = 0
                · subst hi0
                  obtain rfl : l1 = li := Option.some.inj hstepi
                  exact hb
                · exact hall i0 li (by omega) (by omega) hstepi
            · refine Or.inr ⟨hmveq, hocc, ?_⟩
              intro i li h1 h2 hstepi
              rcases i with _ | i0
              · omega
              · rw [stepN_succ dx dy i0 loc l1 ho] at hstepi
                by_cases hi0 : i0 = 0
                · subst hi0
                  obtain rfl : l1 = li := Option.some.inj hstepi
                  exact hb
                · exact hall i0 li (by omega) (by omega) hstepi

/-- Membership in the sliding generator is membership in one direction's
walk. -/
theorem mem_sliding_iff (b : Board) (loc : Location) (s : Side)
    (dirs : List (Int × Int)) (mv : PieceMovementType) :
    mv ∈ generate_sliding_moves b loc s dirs ↔
      ∃ d ∈ dirs, mv ∈ genMovesInDirectionAux b s d.1 d.2 8 loc := by
  unfold generate_sliding_moves generate_moves_in_direction
  exact List.mem_flatMap

/-- The three sliding direction sets all consist of the queen's eight unit
directions. -/
theorem dirs_subset_queen (dirs : List (Int × Int))
    (hdirs : dirs = ROCK_POSSIBLE_DIRECTIONS ∨
      dirs = BISHOP_POSSIBLE_DIRECTIONS ∨ dirs = QUEEN_POSSIBLE_DIRECTIONS) :
    ∀ d ∈ dirs, d ∈ QUEEN_POSSIBLE_DIRECTIONS := by
  rcases hdirs with rfl | rfl | rfl <;> decide

/-- Claim C5: for a rook, bishop or queen (direction sets
`ROCK_POSSIBLE_DIRECTIONS`, `BISHOP_POSSIBLE_DIRECTIONS`,
`QUEEN_POSSIBLE_DIRECTIONS`; `generate_moves` of each piece is
`generate_sliding_moves` over its set) at any square, and any direction
`(dx, dy)` of the piece's set: if the nearest occupied square along that ray
is at distance `k` (squares at distances `1..k-1` are empty, the square `lk`
at distance `k` holds a piece `pk`), then the generated move set contains
`Relocate` of every on-board ray square at distance `< k` and nothing at
distance `≥ k`, except `Capture lk` exactly when `pk` is an enemy; moreover
(second conjunct) every generated move is the `Relocate` or `Capture` of an
on-board square of one of the piece's rays — walks stop at the board edge
and never wrap. -/
theorem sliding_blocking (dirs : List (Int × Int))
    (hdirs : dirs = ROCK_POSSIBLE_DIRECTIONS ∨
      dirs = BISHOP_POSSIBLE_DIRECTIONS ∨ dirs = QUEEN_POSSIBLE_DIRECTIONS)
    (dx dy : Int) (hd : (dx, dy) ∈ dirs)
    (b : Board) (loc : Location) (s : Side) (k : Nat) (lk : Location)
    (pk : Piece) (hk1 : 1 ≤ k) (hkstep : stepN dx dy k loc = some lk)
    (hkocc : b lk = some pk)
    (hnearest : ∀ (j : Nat) (lj : Location), 1 ≤ j → j < k →
      stepN dx dy j loc = some lj → b lj = none) :
    (∀ (j : Nat) (lj : Location), 1 ≤ j → stepN dx dy j loc = some lj →
      ((j < k → PieceMovementType.Relocate lj ∈
          generate_sliding_moves b loc s dirs) ∧
       (k ≤ j → PieceMovementType.Relocate lj ∉
          generate_sliding_moves b loc s dirs) ∧
       (PieceMovementType.Capture lj ∈ generate_sliding_moves b loc s dirs ↔
          j = k ∧ pk.side ≠ s) ∧
       PieceMovementType.Promotion lj ∉ generate_sliding_moves b loc s dirs))
    ∧
    (∀ mv ∈ generate_sliding_moves b loc s dirs,
      ∃ (dx2 dy2 : Int) (j : Nat) (l : Location), (dx2, dy2) ∈ dirs ∧
        1 ≤ j ∧ stepN dx2 dy2 j loc = some l ∧
        (mv = PieceMovementType.Relocate l ∨
          mv = PieceMovementType.Capture l)) := by
  have hsub := dirs_subset_queen dirs hdirs
  have hdQ : (dx, dy) ∈ QUEEN_POSSIBLE_DIRECTIONS := hsub _ hd
  constructor
  · intro j lj hj hstep
    refine ⟨?_, ?_, ?_, ?_⟩
    · intro hjk
      apply (mem_sliding_iff b loc s dirs _).mpr
      refine ⟨(dx, dy), hd, ?_⟩
      obtain ⟨n, rfl⟩ : ∃ n, j = n + 1 := ⟨j - 1, by omega⟩
      exact relocate_mem_genAux b s dx dy n 8 loc lj hstep
        (by have := stepN_le_seven dx dy hdQ (n + 1) loc lj hstep; omega)
        (fun i li h1 h2 hstepi => hnearest i li h1 (by omega) hstepi)
    · intro hkj hmem
      obtain ⟨d2, hd2, hmv⟩ := (mem_sliding_iff b loc s dirs _).mp hmem
      obtain ⟨j2, l2, hj2, hstep2, H⟩ :=
        mem_genAux_shape b s d2.1 d2.2 8 loc _ hmv
      rcases H with ⟨heq, hall⟩ | ⟨heq, _, _⟩
      · obtain rfl : lj = l2 := by injection heq
        obtain ⟨hdx, hdy, hjj⟩ := stepN_cross d2.1 d2.2 dx dy (hsub _ hd2)
          hdQ loc lj j2 j hj2 hj hstep2 hstep
        rw [hdx, hdy] at hall
        have hnone := hall k lk hk1 (by omega) hkstep
        rw [hkocc] at hnone
        exact Option.noConfusion hnone
      · exact PieceMovementType.noConfusion heq
    · constructor
      · intro hmem
        obtain ⟨d2, hd2, hmv⟩ := (mem_sliding_iff b loc s dirs _).mp hmem
        obtain ⟨j2, l2, hj2, hstep2, H⟩ :=
          mem_genAux_shape b s d2.1 d2.2 8 loc _ hmv
        rcases H with ⟨heq, _⟩ | ⟨heq, hocc, hall⟩
        · exact PieceMovementType.noConfusion heq
        · obtain rfl : lj = l2 := by injection heq
          obtain ⟨hdx, hdy, hjj⟩ := stepN_cross d2.1 d2.2 dx dy (hsub _ hd2)
            hdQ loc lj j2 j hj2 hj hstep2 hstep
          rw [hdx, hdy] at hall
          have hjk : j = k := by
            by_contra hne
            rcases Nat.lt_or_ge j k with hlt | hge
            · obtain ⟨p2, hp2, _⟩ := hocc
              rw [hnearest j lj hj hlt hstep] at hp2
              exact Option.noConfusion hp2
            · have hnone := hall k lk hk1 (by omega) hkstep
              rw [hkocc] at hnone
              exact Option.noConfusion hnone
          subst hjk
          have hlk : lj = lk := Option.some.inj (hstep.symm.trans hkstep)
          refine ⟨rfl, ?_⟩
          obtain ⟨p2, hp2, hps2⟩ := hocc
          rw [hlk, hkocc] at hp2
          obtain rfl : pk = p2 := Option.some.inj hp2
          exact hps2
      · rintro ⟨rfl, hps⟩
        have hlk : lj = lk := Option.some.inj (hstep.symm.trans hkstep)
        subst hlk
        apply (mem_sliding_iff b loc s dirs _).mpr
        refine ⟨(dx, dy), hd, ?_⟩
        obtain ⟨n, rfl⟩ : ∃ n, j = n + 1 := ⟨j - 1, by omega⟩
        exact capture_mem_genAux b s dx dy n 8 loc lj pk hstep
          (by have := stepN_le_seven dx dy hdQ (n + 1) loc lj hstep; omega)
          (fun i li h1 h2 hstepi => hnearest i li h1 (by omega) hstepi)
          hkocc hps
    · intro hmem
      obtain ⟨d2, _, hmv⟩ := (mem_sliding_iff b loc s dirs _).mp hmem
      obtain ⟨j2, l2, _, _, H⟩ := mem_genAux_shape b s d2.1 d2.2 8 loc _ hmv
      rcases H with ⟨heq, _⟩ | ⟨heq, _, _⟩ <;>
        exact PieceMovementType.noConfusion heq
  · intro mv hmem
    obtain ⟨d2, hd2, hmv⟩ := (mem_sliding_iff b loc s dirs _).mp hmem
    obtain ⟨j2, l2, hj2, hstep2, H⟩ :=
      mem_genAux_shape b s d2.1 d2.2 8 loc _ hmv
    refine ⟨d2.1, d2.2, j2, l2, hd2, hj2, hstep2, ?_⟩
    rcases H with ⟨heq, _⟩ | ⟨heq, _, _⟩
    · exact Or.inl heq
    · exact Or.inr heq

/-- Board with a White rook on a1 and a Black pawn on a4: along the upward
ray from a1 the nearest occupied square is at distance 3. -/
def boardRookRay : Board :=
  (Board.new.set a1 (some whiteRook)).set a4 (some blackPawn)

/-- Witness for C5 on `boardRookRay`, direction `(0, 1)` of the rook's set,
`k = 3`: the generated sliding moves contain the capture of the Black pawn
at distance 3 and the relocation at distance 2. -/
theorem sliding_blocking_witness :
    PieceMovementType.Capture a4 ∈
      generate_sliding_moves boardRookRay a1 Side.White
        ROCK_POSSIBLE_DIRECTIONS ∧
    PieceMovementType.Relocate a2 ∈
      generate_sliding_moves boardRookRay a1 Side.White
        ROCK_POSSIBLE_DIRECTIONS := by
  have hnear : ∀ (j : Nat) (lj : Location), 1 ≤ j → j < 3 →
      stepN 0 1 j a1 = some lj → boardRookRay lj = none := by
    intro j lj h1 h3 hstep
    have h12 : j = 1 ∨ j = 2 := by omega
    rcases h12 with rfl | rfl
    · have hv : stepN 0 1 1 a1 = some a2 := by decide
      rw [hv] at hstep
      obtain rfl : a2 = lj := Option.some.inj hstep
      decide
    · have hv : stepN 0 1 2 a1 = some a3 := by decide
      rw [hv] at hstep
      obtain rfl : a3 = lj := Option.some.inj hstep
      decide
  have H := sliding_blocking ROCK_POSSIBLE_DIRECTIONS (Or.inl rfl) 0 1
    (by decide) boardRookRay a1 Side.White 3 a4 blackPawn (by omega)
    (by decide) (by decide) hnear
  exact ⟨((H.1 3 a4 (by omega) (by decide)).2.2.1).mpr ⟨rfl, by decide⟩,
    (H.1 1 a2 (by omega) (by decide)).1 (by omega)⟩
